import Mathlib

set_option maxRecDepth 4000

/-!
Shallow embedding of the `ror` repository's deterministic core
(`src/core/src/lib.rs`), of the guest program's journal
(`src/methods/guest/src/main.rs`), and of the journal layout the host
verifier reads back (`src/host/src/main.rs`).

Conventions of the embedding:

* Machine integers (`u8`, `u32`, `u64`) are embedded as `Nat`.  Every
  arithmetic operation the embedded code performs stays far below the
  corresponding width (weights are at most 1 000 000, their sum at most
  4 000 000 < 2^32, cursor coordinates stay below 64), so no explicit
  `% 2^w` reduction is needed; Rust's `saturating_sub` coincides with
  truncated `Nat` subtraction.
* The pseudo-random bit source (the external `rand_chacha` crate's
  `ChaCha8Rng`, seeded from the raw 32-byte key) is an external
  dependency, not repository code; following the spec's "deterministic
  bit source" contract it is embedded abstractly as a state type `σ`
  with two pure state transformers: `next : σ → Nat × σ` for
  `rng.gen::<u32>()` and `range : σ → Nat → Nat → Nat × σ` for
  `rng.gen_range(lo..hi)`, plus a seeding map `fromSeed : Key → σ` for
  `ChaCha8Rng::from_seed`.  Where a claim needs the range contract
  (`lo ≤ result < hi`), it is taken as an explicit hypothesis.
* Rust's panicking byte index `data[i]` is embedded with `List.getD`
  / `List.set`; the two agree on every canvas whose byte vector has
  its full length, which holds for every canvas the embedded code
  builds, and the out-of-bounds guards of the accessors are evaluated
  before any index, exactly as in the source.
-/

/-- A 32-byte secret key, Rust `[u8; 32]`. -/
def Key : Type := Fin 32 → Fin 256

/-- `u32::from_le_bytes([b0, b1, b2, b3])` on byte values. -/
def u32_from_le_bytes (b0 b1 b2 b3 : Nat) : Nat :=
  b0 + 2 ^ 8 * b1 + 2 ^ 16 * b2 + 2 ^ 24 * b3

/-- `derive_parameters` from `src/core/src/lib.rs`: walk and step counts
from the first eight key bytes. -/
def derive_parameters (pk : Key) : Nat × Nat :=
  let walks_raw := u32_from_le_bytes (pk 0).val (pk 1).val (pk 2).val (pk 3).val
  let steps_raw := u32_from_le_bytes (pk 4).val (pk 5).val (pk 6).val (pk 7).val
  (3 + walks_raw % 8, 100 + steps_raw % 201)

/-- `Pixel` from `src/core/src/lib.rs` (an RGB triple of `u8`). -/
structure Pixel where
  r : Nat
  g : Nat
  b : Nat
  deriving DecidableEq

/-- `Image32x64` from `src/core/src/lib.rs`: RGB pixels in row-major
order, index `y * 32 + x`. -/
structure Image32x64 where
  pixels : List Pixel
  deriving DecidableEq

def Image32x64.new (background : Pixel) : Image32x64 :=
  ⟨List.replicate (32 * 64) background⟩

def Image32x64.get_pixel (img : Image32x64) (x y : Nat) : Option Pixel :=
  if x < 32 ∧ y < 64 then img.pixels[y * 32 + x]? else none

def Image32x64.set_pixel (img : Image32x64) (x y : Nat) (pixel : Pixel) : Image32x64 :=
  if x < 32 ∧ y < 64 then ⟨img.pixels.set (y * 32 + x) pixel⟩ else img

/-- `Image32x64::to_bytes`: three bytes `r, g, b` pushed per pixel. -/
def Image32x64.to_bytes (img : Image32x64) : List Nat :=
  img.pixels.foldr (fun p acc => p.r :: p.g :: p.b :: acc) []

/-- `BinaryImage32x64` from `src/core/src/lib.rs`: 32×64 cells packed
one bit per cell into 256 bytes. -/
structure BinaryImage32x64 where
  data : List Nat
  deriving DecidableEq

def BinaryImage32x64.new : BinaryImage32x64 :=
  ⟨List.replicate 256 0⟩

/-- `BinaryImage32x64::set_pixel`.  `!(1 << (7 - off))` on `u8` is
`255 ^^^ (1 <<< (7 - off))`. -/
def BinaryImage32x64.set_pixel (c : BinaryImage32x64) (x y : Nat) (value : Bool) :
    BinaryImage32x64 :=
  if x < 32 ∧ y < 64 then
    let bit_index := y * 32 + x
    let byte_index := bit_index / 8
    let bit_offset := bit_index % 8
    let old := c.data.getD byte_index 0
    let updated :=
      if value then old ||| (1 <<< (7 - bit_offset))
      else old &&& (255 ^^^ (1 <<< (7 - bit_offset)))
    ⟨c.data.set byte_index updated⟩
  else c

/-- `BinaryImage32x64::get_pixel`. -/
def BinaryImage32x64.get_pixel (c : BinaryImage32x64) (x y : Nat) : Bool :=
  if x < 32 ∧ y < 64 then
    let bit_index := y * 32 + x
    ((c.data.getD (bit_index / 8) 0) &&& (1 <<< (7 - bit_index % 8))) != 0
  else false

def BinaryImage32x64.to_bytes (c : BinaryImage32x64) : List Nat :=
  c.data

def BinaryImage32x64.from_bytes (bytes : List Nat) : BinaryImage32x64 :=
  ⟨bytes⟩

/-- The constants of `src/core/src/lib.rs`. -/
def VIRTUAL_WIDTH : Nat := 64

def PHYSICAL_WIDTH : Nat := 32

def HEIGHT : Nat := 64

def SCALE : Nat := 1000000

/-- `Direction` from `src/core/src/lib.rs`. -/
inductive Direction where
  | left
  | right
  | up
  | down
  deriving DecidableEq

/-- The `left_prob` computation inside `decide_direction_fixed`: the
cursor's saturating distance past the left margin
(`cursor_x.saturating_sub(left_margin)`), ramped to `SCALE`. -/
def left_prob (cursor_x : Nat) : Nat :=
  if VIRTUAL_WIDTH / 4 ≤ cursor_x - VIRTUAL_WIDTH / 4 then SCALE
  else (cursor_x - VIRTUAL_WIDTH / 4) * SCALE / (VIRTUAL_WIDTH / 4)

/-- The `right_prob` computation inside `decide_direction_fixed`, from
`right_boundary.saturating_sub(cursor_x)`. -/
def right_prob (cursor_x : Nat) : Nat :=
  if VIRTUAL_WIDTH / 4 ≤ 3 * VIRTUAL_WIDTH / 4 - cursor_x then SCALE
  else (3 * VIRTUAL_WIDTH / 4 - cursor_x) * SCALE / (VIRTUAL_WIDTH / 4)

/-- The `up_prob` computation inside `decide_direction_fixed`, from
`cursor_y.saturating_sub(top_margin)`. -/
def up_prob (cursor_y : Nat) : Nat :=
  if HEIGHT / 4 ≤ cursor_y - HEIGHT / 4 then SCALE
  else (cursor_y - HEIGHT / 4) * SCALE / (HEIGHT / 4)

/-- The `down_prob` computation inside `decide_direction_fixed`, from
`bottom_boundary.saturating_sub(cursor_y)`. -/
def down_prob (cursor_y : Nat) : Nat :=
  if HEIGHT / 4 ≤ 3 * HEIGHT / 4 - cursor_y then SCALE
  else (3 * HEIGHT / 4 - cursor_y) * SCALE / (HEIGHT / 4)

/-- The sum `total` of the four direction weights. -/
def total_weight (cursor_x cursor_y : Nat) : Nat :=
  left_prob cursor_x + right_prob cursor_x + up_prob cursor_y + down_prob cursor_y

/-- `decide_direction_fixed` from `src/core/src/lib.rs`, abstracted over
the bit source's `next_u32` transformer. -/
def decide_direction_fixed {σ : Type} (next : σ → Nat × σ) (s : σ)
    (cursor_x cursor_y : Nat) : Direction × σ :=
  let total := total_weight cursor_x cursor_y
  let v := next s
  let rand_val := v.1 % total
  (if rand_val < left_prob cursor_x then Direction.left
   else if rand_val < left_prob cursor_x + right_prob cursor_x then Direction.right
   else if rand_val < left_prob cursor_x + right_prob cursor_x + up_prob cursor_y then
     Direction.up
   else Direction.down,
   v.2)

/-- The cursor update of the walk loop (shared verbatim by
`generate_rorschach_half` and `generate_rorschach_binary`): move one
unit in the drawn direction only when the move stays inside the
centered sub-region, otherwise stay put. -/
def moveCursor : Direction → Nat × Nat → Nat × Nat
  | Direction.left, (cx, cy) => (if VIRTUAL_WIDTH / 4 < cx then cx - 1 else cx, cy)
  | Direction.right, (cx, cy) =>
      (if cx < 3 * VIRTUAL_WIDTH / 4 - 1 then cx + 1 else cx, cy)
  | Direction.up, (cx, cy) => (cx, if HEIGHT / 4 < cy then cy - 1 else cy)
  | Direction.down, (cx, cy) =>
      (cx, if cy < 3 * HEIGHT / 4 - 1 then cy + 1 else cy)

/-- The coordinate fold applied at every mark: a virtual x at or past
the physical width is mirrored to `VIRTUAL_WIDTH - x - 1`. -/
def foldPhysicalX (x : Nat) : Nat :=
  if PHYSICAL_WIDTH ≤ x then VIRTUAL_WIDTH - x - 1 else x

/-- The mutable locals of one walk: cursor, canvas under construction,
and the bit source state.  The canvas type `κ` is `BinaryImage32x64`
for `generate_rorschach_binary` and `Image32x64` for
`generate_rorschach_half`; the two Rust functions' loops are otherwise
textually identical, so the embedding factors the loop over the mark
operation. -/
structure WalkState (σ κ : Type) where
  cursor : Nat × Nat
  canvas : κ
  rng : σ

/-- One iteration of the inner `for _ in 0..steps` loop: draw a
direction (one bit-source draw), move, mark the folded cell. -/
def walkStep {σ κ : Type} (next : σ → Nat × σ) (mark : κ → Nat → Nat → κ)
    (st : WalkState σ κ) : WalkState σ κ :=
  let dir := decide_direction_fixed next st.rng st.cursor.1 st.cursor.2
  let c := moveCursor dir.1 st.cursor
  ⟨c, mark st.canvas (foldPhysicalX c.1) c.2, dir.2⟩

/-- The head of one `for _ in 0..walks` iteration: draw the start
cursor inside the centered sub-region and mark its folded cell. -/
def startWalk {σ κ : Type} (range : σ → Nat → Nat → Nat × σ)
    (mark : κ → Nat → Nat → κ) (s : σ) (canvas : κ) : WalkState σ κ :=
  let cx := range s (VIRTUAL_WIDTH / 4) (3 * VIRTUAL_WIDTH / 4)
  let cy := range cx.2 (HEIGHT / 4) (3 * HEIGHT / 4)
  ⟨(cx.1, cy.1), mark canvas (foldPhysicalX cx.1) cy.1, cy.2⟩

/-- The full `for _ in 0..walks { ... for _ in 0..steps { ... } }`
nest of the two generators. -/
def runWalks {σ κ : Type} (next : σ → Nat × σ) (range : σ → Nat → Nat → Nat × σ)
    (mark : κ → Nat → Nat → κ) (walks steps : Nat) (canvas : κ) (s : σ) : κ × σ :=
  match walks with
  | 0 => (canvas, s)
  | w + 1 =>
    let st := (walkStep next mark)^[steps] (startWalk range mark s canvas)
    runWalks next range mark w steps st.canvas st.rng

/-- `generate_rorschach_binary` from `src/core/src/lib.rs`. -/
def generate_rorschach_binary {σ : Type} (next : σ → Nat × σ)
    (range : σ → Nat → Nat → Nat × σ) (fromSeed : Key → σ) (private_key : Key)
    (walks steps : Nat) : BinaryImage32x64 :=
  (runWalks next range (fun c x y => c.set_pixel x y true) walks steps
    BinaryImage32x64.new (fromSeed private_key)).1

/-- `generate_rorschach_half` from `src/core/src/lib.rs`. -/
def generate_rorschach_half {σ : Type} (next : σ → Nat × σ)
    (range : σ → Nat → Nat → Nat × σ) (fromSeed : Key → σ) (private_key : Key)
    (walks steps : Nat) (foreground background : Pixel) : Image32x64 :=
  (runWalks next range (fun img x y => img.set_pixel x y foreground) walks steps
    (Image32x64.new background) (fromSeed private_key)).1

/-- One committed journal entry of the guest program: either a byte
blob or an integer. -/
inductive JournalItem where
  | bytes (bs : List Nat)
  | int (n : Nat)
  deriving DecidableEq

/-- The colors hardcoded in the guest's `main`. -/
def guest_foreground : Pixel := ⟨255, 217, 102⟩

def guest_background : Pixel := ⟨255, 0, 129⟩

/-- The commit sequence of the guest `main`
(`src/methods/guest/src/main.rs`): address, walks, steps, then the
bytes of the canvas it generated.  The secp256k1/keccak address
derivation is performed by external crates and is abstracted as the
parameter `address`. -/
def guest_journal {σ : Type} (next : σ → Nat × σ) (range : σ → Nat → Nat → Nat × σ)
    (fromSeed : Key → σ) (address : Key → List Nat) (private_key : Key) :
    List JournalItem :=
  let p := derive_parameters private_key
  let image := generate_rorschach_half next range fromSeed private_key p.1 p.2
    guest_foreground guest_background
  [JournalItem.bytes (address private_key), JournalItem.int p.1, JournalItem.int p.2,
   JournalItem.bytes image.to_bytes]

/-- The centered sub-region the walker maintains: virtual coordinates
in `[16, 48) × [16, 48)`. -/
def inRegion (c : Nat × Nat) : Prop :=
  VIRTUAL_WIDTH / 4 ≤ c.1 ∧ c.1 < 3 * VIRTUAL_WIDTH / 4 ∧
    HEIGHT / 4 ≤ c.2 ∧ c.2 < 3 * HEIGHT / 4

instance (c : Nat × Nat) : Decidable (inRegion c) := by
  unfold inRegion; exact inferInstance

/-- Weight formula as the spec words it: the distance past the side's
inward margin, saturating at `SCALE` once it reaches the quarter-span
16, otherwise `distance * SCALE / 16`. -/
def specWeight (distance : Nat) : Nat :=
  if 16 ≤ distance then SCALE else distance * SCALE / 16

/-- Selection rule as the spec words it: the first direction, in the
given order, whose cumulative weight sum exceeds `r`. -/
def firstExceeding (r : Nat) : List (Direction × Nat) → Nat → Direction
  | [], _ => Direction.down
  | (d, w) :: rest, acc => if r < acc + w then d else firstExceeding r rest (acc + w)

/-- A concrete bit-source state machine used to instantiate witnesses:
a bare counter. -/
def tNext (s : Nat) : Nat × Nat := (s, s + 1)

def tRange (s lo : Nat) (_hi : Nat) : Nat × Nat := (lo, s + 1)

def tSeed (_k : Key) : Nat := 0

def tMark (c : Nat) (_x _y : Nat) : Nat := c

def tAddress (_k : Key) : List Nat := List.replicate 20 0

def zeroKey : Key := fun _ => 0

def ffKey : Key := fun _ => 255

/-! ### Helper lemmas on the bit-packed canvas -/

theorem and_two_pow_bne (a k : Nat) : ((a &&& 2 ^ k) != 0) = a.testBit k := by
  rw [Nat.and_two_pow]
  cases htb : a.testBit k
  · simp
  · simp [bne_iff_ne, (Nat.two_pow_pos k).ne']

theorem get_pixel_testBit (c : BinaryImage32x64) (x y : Nat) (hx : x < 32) (hy : y < 64) :
    c.get_pixel x y =
      (c.data.getD ((y * 32 + x) / 8) 0).testBit (7 - (y * 32 + x) % 8) := by
  unfold BinaryImage32x64.get_pixel
  rw [if_pos ⟨hx, hy⟩]
  simp only [Nat.one_shiftLeft, and_two_pow_bne]

theorem set_pixel_true_data (c : BinaryImage32x64) (x y : Nat) (h : x < 32 ∧ y < 64) :
    (c.set_pixel x y true).data =
      c.data.set ((y * 32 + x) / 8)
        ((c.data.getD ((y * 32 + x) / 8) 0) ||| 2 ^ (7 - (y * 32 + x) % 8)) := by
  unfold BinaryImage32x64.set_pixel
  rw [if_pos h]
  simp [Nat.one_shiftLeft]

theorem set_pixel_data_length (c : BinaryImage32x64) (x y : Nat) (v : Bool) :
    (c.set_pixel x y v).data.length = c.data.length := by
  unfold BinaryImage32x64.set_pixel
  split
  · simp
  · rfl

theorem get_pixel_set_pixel_true (c : BinaryImage32x64) (h256 : c.data.length = 256)
    (x y u v : Nat) (hu : u < 32) (hv : v < 64) :
    (c.set_pixel x y true).get_pixel u v =
      if x = u ∧ y = v then true else c.get_pixel u v := by
  by_cases hxy : x < 32 ∧ y < 64
  · have hidx : (y * 32 + x) / 8 < c.data.length := by omega
    rw [get_pixel_testBit _ u v hu hv, set_pixel_true_data c x y hxy]
    by_cases heq : x = u ∧ y = v
    · rw [if_pos heq]
      obtain ⟨h1, h2⟩ := heq
      subst h1
      subst h2
      simp only [List.getD_eq_getElem?_getD, List.getElem?_set_self hidx,
        Option.getD_some]
      simp [Nat.testBit_lor, Nat.testBit_two_pow_self]
    · rw [if_neg heq]
      have hij : y * 32 + x ≠ v * 32 + u := by
        intro h
        exact heq ⟨by omega, by omega⟩
      rw [get_pixel_testBit c u v hu hv]
      by_cases hb : (y * 32 + x) / 8 = (v * 32 + u) / 8
      · rw [← hb]
        simp only [List.getD_eq_getElem?_getD, List.getElem?_set_self hidx,
          Option.getD_some]
        have hne : 7 - (y * 32 + x) % 8 ≠ 7 - (v * 32 + u) % 8 := by omega
        simp [Nat.testBit_lor, Nat.testBit_two_pow, hne]
      · simp only [List.getD_eq_getElem?_getD, List.getElem?_set_ne hb]
  · have hset : c.set_pixel x y true = c := by
      unfold BinaryImage32x64.set_pixel
      rw [if_neg hxy]
    rw [hset, if_neg]
    intro h
    exact hxy ⟨by omega, by omega⟩

theorem get_pixel_new (x y : Nat) : BinaryImage32x64.new.get_pixel x y = false := by
  by_cases h : x < 32 ∧ y < 64
  · obtain ⟨hx, hy⟩ := h
    rw [get_pixel_testBit _ x y hx hy]
    have hlt : (y * 32 + x) / 8 < 256 := by omega
    have hdata : BinaryImage32x64.new.data = List.replicate 256 0 := rfl
    rw [hdata, List.getD_eq_getElem?_getD, List.getElem?_replicate_of_lt hlt]
    simp [Nat.zero_testBit]
  · unfold BinaryImage32x64.get_pixel
    rw [if_neg h]

/-! ### Helper lemmas on the RGB image -/

theorem image_set_pixel_length (img : Image32x64) (x y : Nat) (p : Pixel) :
    (img.set_pixel x y p).pixels.length = img.pixels.length := by
  unfold Image32x64.set_pixel
  split
  · simp
  · rfl

theorem image_get_set_pixel (img : Image32x64) (h2048 : img.pixels.length = 2048)
    (p : Pixel) (x y u v : Nat) (hu : u < 32) (hv : v < 64) :
    (img.set_pixel x y p).get_pixel u v =
      if x = u ∧ y = v then some p else img.get_pixel u v := by
  by_cases hxy : x < 32 ∧ y < 64
  · have hidx : y * 32 + x < img.pixels.length := by
      obtain ⟨hx, hy⟩ := hxy
      omega
    by_cases heq : x = u ∧ y = v
    · obtain ⟨h1, h2⟩ := heq
      subst h1
      subst h2
      simp only [Image32x64.set_pixel, Image32x64.get_pixel, if_pos hxy]
      rw [if_pos (And.intro trivial trivial)]
      exact List.getElem?_set_self hidx
    · have hij : y * 32 + x ≠ v * 32 + u := by
        intro h
        exact heq ⟨by omega, by omega⟩
      simp only [Image32x64.set_pixel, Image32x64.get_pixel, if_pos hxy,
        if_pos (And.intro hu hv), if_neg heq]
      exact List.getElem?_set_ne hij
  · have hset : img.set_pixel x y p = img := by
      unfold Image32x64.set_pixel
      rw [if_neg hxy]
    rw [hset, if_neg]
    intro h
    exact hxy ⟨by omega, by omega⟩

theorem image_get_pixel_new (bg : Pixel) (x y : Nat) (hx : x < 32) (hy : y < 64) :
    (Image32x64.new bg).get_pixel x y = some bg := by
  unfold Image32x64.new Image32x64.get_pixel
  rw [if_pos ⟨hx, hy⟩]
  have : y * 32 + x < 32 * 64 := by omega
  exact List.getElem?_replicate_of_lt this

theorem image_to_bytes_length_aux (l : List Pixel) :
    (l.foldr (fun p acc => p.r :: p.g :: p.b :: acc) []).length = 3 * l.length := by
  induction l with
  | nil => rfl
  | cons p t ih => simp [List.foldr_cons, ih]; ring

/-! ### Total weight is always positive -/

theorem total_weight_pos (cx cy : Nat) : 0 < total_weight cx cy := by
  rcases le_or_lt 32 cx with h32 | h32
  · have hL : left_prob cx = SCALE := by
      unfold left_prob
      rw [if_pos]
      unfold VIRTUAL_WIDTH
      omega
    unfold total_weight
    rw [hL]
    unfold SCALE
    omega
  · have hR : right_prob cx = SCALE := by
      unfold right_prob
      rw [if_pos]
      unfold VIRTUAL_WIDTH
      omega
    unfold total_weight
    rw [hR]
    unfold SCALE
    omega

/-! ### Invariance and simulation lemmas for the walk loop -/

theorem walkStep_canvas_inv {σ κ : Type} (next : σ → Nat × σ) (mark : κ → Nat → Nat → κ)
    (P : κ → Prop) (hmark : ∀ c x y, P c → P (mark c x y)) (st : WalkState σ κ)
    (h : P st.canvas) : P ((walkStep next mark st).canvas) := by
  unfold walkStep
  exact hmark _ _ _ h

theorem iterate_canvas_inv {σ κ : Type} (next : σ → Nat × σ) (mark : κ → Nat → Nat → κ)
    (P : κ → Prop) (hmark : ∀ c x y, P c → P (mark c x y)) (n : Nat) :
    ∀ st : WalkState σ κ, P st.canvas → P (((walkStep next mark)^[n]) st).canvas := by
  induction n with
  | zero =>
    intro st h
    simpa using h
  | succ k ih =>
    intro st h
    rw [Function.iterate_succ_apply]
    exact ih _ (walkStep_canvas_inv next mark P hmark st h)

theorem startWalk_canvas_inv {σ κ : Type} (range : σ → Nat → Nat → Nat × σ)
    (mark : κ → Nat → Nat → κ) (P : κ → Prop)
    (hmark : ∀ c x y, P c → P (mark c x y)) (s : σ) (canvas : κ) (h : P canvas) :
    P ((startWalk range mark s canvas).canvas) := by
  unfold startWalk
  exact hmark _ _ _ h

theorem runWalks_canvas_inv {σ κ : Type} (next : σ → Nat × σ)
    (range : σ → Nat → Nat → Nat × σ) (mark : κ → Nat → Nat → κ) (P : κ → Prop)
    (hmark : ∀ c x y, P c → P (mark c x y)) :
    ∀ (walks steps : Nat) (canvas : κ) (s : σ), P canvas →
      P (runWalks next range mark walks steps canvas s).1 := by
  intro walks
  induction walks with
  | zero =>
    intro steps canvas s h
    exact h
  | succ w ih =>
    intro steps canvas s h
    simp only [runWalks]
    exact ih steps _ _
      (iterate_canvas_inv next mark P hmark steps _
        (startWalk_canvas_inv range mark P hmark s canvas h))

theorem inRegion_mk (a b : Nat) :
    inRegion (a, b) ↔ 16 ≤ a ∧ a < 48 ∧ 16 ≤ b ∧ b < 48 := Iff.rfl

theorem moveCursor_left (cx cy : Nat) :
    moveCursor Direction.left (cx, cy) = (if 16 < cx then cx - 1 else cx, cy) := rfl

theorem moveCursor_right (cx cy : Nat) :
    moveCursor Direction.right (cx, cy) = (if cx < 47 then cx + 1 else cx, cy) := rfl

theorem moveCursor_up (cx cy : Nat) :
    moveCursor Direction.up (cx, cy) = (cx, if 16 < cy then cy - 1 else cy) := rfl

theorem moveCursor_down (cx cy : Nat) :
    moveCursor Direction.down (cx, cy) = (cx, if cy < 47 then cy + 1 else cy) := rfl

theorem moveCursor_inRegion (d : Direction) (c : Nat × Nat) (h : inRegion c) :
    inRegion (moveCursor d c) := by
  obtain ⟨cx, cy⟩ := c
  rw [inRegion_mk] at h
  cases d
  case left =>
    rw [moveCursor_left, inRegion_mk]
    split_ifs <;> omega
  case right =>
    rw [moveCursor_right, inRegion_mk]
    split_ifs <;> omega
  case up =>
    rw [moveCursor_up, inRegion_mk]
    split_ifs <;> omega
  case down =>
    rw [moveCursor_down, inRegion_mk]
    split_ifs <;> omega

theorem walkStep_inRegion {σ κ : Type} (next : σ → Nat × σ) (mark : κ → Nat → Nat → κ)
    (st : WalkState σ κ) (h : inRegion st.cursor) :
    inRegion ((walkStep next mark st).cursor) := by
  unfold walkStep
  exact moveCursor_inRegion _ _ h

theorem iterate_inRegion {σ κ : Type} (next : σ → Nat × σ) (mark : κ → Nat → Nat → κ)
    (n : Nat) :
    ∀ st : WalkState σ κ, inRegion st.cursor →
      inRegion (((walkStep next mark)^[n]) st).cursor := by
  induction n with
  | zero =>
    intro st h
    simpa using h
  | succ k ih =>
    intro st h
    rw [Function.iterate_succ_apply]
    exact ih _ (walkStep_inRegion next mark st h)

theorem startWalk_inRegion {σ κ : Type} (range : σ → Nat → Nat → Nat × σ)
    (mark : κ → Nat → Nat → κ)
    (hrange : ∀ s lo hi, lo < hi → lo ≤ (range s lo hi).1 ∧ (range s lo hi).1 < hi)
    (s : σ) (canvas : κ) : inRegion ((startWalk range mark s canvas).cursor) := by
  unfold startWalk inRegion
  have h1 := hrange s (VIRTUAL_WIDTH / 4) (3 * VIRTUAL_WIDTH / 4)
    (by unfold VIRTUAL_WIDTH; omega)
  have h2 := hrange (range s (VIRTUAL_WIDTH / 4) (3 * VIRTUAL_WIDTH / 4)).2
    (HEIGHT / 4) (3 * HEIGHT / 4) (by unfold HEIGHT; omega)
  exact ⟨h1.1, h1.2, h2.1, h2.2⟩

theorem walkStep_rel {σ κ₁ κ₂ : Type} (next : σ → Nat × σ)
    (mark₁ : κ₁ → Nat → Nat → κ₁) (mark₂ : κ₂ → Nat → Nat → κ₂)
    (R : κ₁ → κ₂ → Prop)
    (hmark : ∀ c₁ c₂ x y, R c₁ c₂ → R (mark₁ c₁ x y) (mark₂ c₂ x y))
    (st₁ : WalkState σ κ₁) (st₂ : WalkState σ κ₂)
    (hc : st₁.cursor = st₂.cursor) (hs : st₁.rng = st₂.rng)
    (hR : R st₁.canvas st₂.canvas) :
    (walkStep next mark₁ st₁).cursor = (walkStep next mark₂ st₂).cursor ∧
    (walkStep next mark₁ st₁).rng = (walkStep next mark₂ st₂).rng ∧
    R ((walkStep next mark₁ st₁).canvas) ((walkStep next mark₂ st₂).canvas) := by
  unfold walkStep
  rw [hc, hs]
  exact ⟨rfl, rfl, hmark _ _ _ _ hR⟩

theorem iterate_rel {σ κ₁ κ₂ : Type} (next : σ → Nat × σ)
    (mark₁ : κ₁ → Nat → Nat → κ₁) (mark₂ : κ₂ → Nat → Nat → κ₂)
    (R : κ₁ → κ₂ → Prop)
    (hmark : ∀ c₁ c₂ x y, R c₁ c₂ → R (mark₁ c₁ x y) (mark₂ c₂ x y)) (n : Nat) :
    ∀ (st₁ : WalkState σ κ₁) (st₂ : WalkState σ κ₂),
      st₁.cursor = st₂.cursor → st₁.rng = st₂.rng → R st₁.canvas st₂.canvas →
      ((walkStep next mark₁)^[n] st₁).cursor = ((walkStep next mark₂)^[n] st₂).cursor ∧
      ((walkStep next mark₁)^[n] st₁).rng = ((walkStep next mark₂)^[n] st₂).rng ∧
      R (((walkStep next mark₁)^[n] st₁).canvas) (((walkStep next mark₂)^[n] st₂).canvas) := by
  induction n with
  | zero =>
    intro st₁ st₂ hc hs hR
    simpa using ⟨hc, hs, hR⟩
  | succ k ih =>
    intro st₁ st₂ hc hs hR
    rw [Function.iterate_succ_apply, Function.iterate_succ_apply]
    obtain ⟨hc1, hs1, hR1⟩ := walkStep_rel next mark₁ mark₂ R hmark st₁ st₂ hc hs hR
    exact ih _ _ hc1 hs1 hR1

theorem startWalk_rel {σ κ₁ κ₂ : Type} (range : σ → Nat → Nat → Nat × σ)
    (mark₁ : κ₁ → Nat → Nat → κ₁) (mark₂ : κ₂ → Nat → Nat → κ₂)
    (R : κ₁ → κ₂ → Prop)
    (hmark : ∀ c₁ c₂ x y, R c₁ c₂ → R (mark₁ c₁ x y) (mark₂ c₂ x y))
    (s : σ) (c₁ : κ₁) (c₂ : κ₂) (hR : R c₁ c₂) :
    (startWalk range mark₁ s c₁).cursor = (startWalk range mark₂ s c₂).cursor ∧
    (startWalk range mark₁ s c₁).rng = (startWalk range mark₂ s c₂).rng ∧
    R ((startWalk range mark₁ s c₁).canvas) ((startWalk range mark₂ s c₂).canvas) := by
  unfold startWalk
  exact ⟨rfl, rfl, hmark _ _ _ _ hR⟩

theorem runWalks_rel {σ κ₁ κ₂ : Type} (next : σ → Nat × σ)
    (range : σ → Nat → Nat → Nat × σ)
    (mark₁ : κ₁ → Nat → Nat → κ₁) (mark₂ : κ₂ → Nat → Nat → κ₂)
    (R : κ₁ → κ₂ → Prop)
    (hmark : ∀ c₁ c₂ x y, R c₁ c₂ → R (mark₁ c₁ x y) (mark₂ c₂ x y)) :
    ∀ (walks steps : Nat) (c₁ : κ₁) (c₂ : κ₂) (s : σ), R c₁ c₂ →
      R (runWalks next range mark₁ walks steps c₁ s).1
        (runWalks next range mark₂ walks steps c₂ s).1 ∧
      (runWalks next range mark₁ walks steps c₁ s).2 =
        (runWalks next range mark₂ walks steps c₂ s).2 := by
  intro walks
  induction walks with
  | zero =>
    intro steps c₁ c₂ s hR
    exact ⟨hR, rfl⟩
  | succ w ih =>
    intro steps c₁ c₂ s hR
    obtain ⟨hsc, hss, hsR⟩ := startWalk_rel range mark₁ mark₂ R hmark s c₁ c₂ hR
    obtain ⟨hic, his, hiR⟩ := iterate_rel next mark₁ mark₂ R hmark steps _ _ hsc hss hsR
    simp only [runWalks]
    rw [his]
    exact ih steps _ _ _ hiR

/-! ### Claim theorems -/

/-- C2: the canvas generator is a pure function of the key alone — two
invocations of `generate_rorschach_binary` with the parameters derived
from equal keys return byte-identical 256-byte canvases. -/
theorem generate_binary_deterministic {σ : Type} (next : σ → Nat × σ)
    (range : σ → Nat → Nat → Nat × σ) (fromSeed : Key → σ) (k₁ k₂ : Key)
    (h : k₁ = k₂) :
    (generate_rorschach_binary next range fromSeed k₁
        (derive_parameters k₁).1 (derive_parameters k₁).2).to_bytes =
    (generate_rorschach_binary next range fromSeed k₂
        (derive_parameters k₂).1 (derive_parameters k₂).2).to_bytes := by
  rw [h]

theorem generate_binary_deterministic_witness :
    (generate_rorschach_binary tNext tRange tSeed zeroKey
        (derive_parameters zeroKey).1 (derive_parameters zeroKey).2).to_bytes =
    (generate_rorschach_binary tNext tRange tSeed zeroKey
        (derive_parameters zeroKey).1 (derive_parameters zeroKey).2).to_bytes :=
  generate_binary_deterministic tNext tRange tSeed zeroKey zeroKey rfl

/-- C3: `derive_parameters` computes `walks = 3 + (LE u32 of bytes 0..4) % 8`
and `steps = 100 + (LE u32 of bytes 4..8) % 201`, hence `walks ∈ [3, 10]`
and `steps ∈ [100, 300]` for every key, and the all-`0xFF` key yields
`walks = 10`. -/
theorem derive_parameters_spec :
    (∀ pk : Key,
      (derive_parameters pk).1 =
        3 + u32_from_le_bytes (pk 0).val (pk 1).val (pk 2).val (pk 3).val % 8 ∧
      (derive_parameters pk).2 =
        100 + u32_from_le_bytes (pk 4).val (pk 5).val (pk 6).val (pk 7).val % 201 ∧
      3 ≤ (derive_parameters pk).1 ∧ (derive_parameters pk).1 ≤ 10 ∧
      100 ≤ (derive_parameters pk).2 ∧ (derive_parameters pk).2 ≤ 300) ∧
    (derive_parameters ffKey).1 = 10 := by
  constructor
  · intro pk
    have he : derive_parameters pk =
        (3 + u32_from_le_bytes (pk 0).val (pk 1).val (pk 2).val (pk 3).val % 8,
         100 + u32_from_le_bytes (pk 4).val (pk 5).val (pk 6).val (pk 7).val % 201) := rfl
    have h8 : u32_from_le_bytes (pk 0).val (pk 1).val (pk 2).val (pk 3).val % 8 < 8 :=
      Nat.mod_lt _ (by omega)
    have h201 : u32_from_le_bytes (pk 4).val (pk 5).val (pk 6).val (pk 7).val % 201 < 201 :=
      Nat.mod_lt _ (by omega)
    rw [he]
    dsimp only
    exact ⟨rfl, rfl, by omega, by omega, by omega, by omega⟩
  · rfl

/-- C4: each of the four weights computed by `decide_direction_fixed` is
the clamped linear ramp of that side's saturating margin distance (at
most `SCALE`), and the drawn direction is the first of Left, Right, Up,
Down whose cumulative weight sum exceeds `r = next_u32() % total`. -/
theorem decide_direction_fixed_spec :
    (∀ cx, left_prob cx = specWeight (cx - 16) ∧ right_prob cx = specWeight (48 - cx)) ∧
    (∀ cy, up_prob cy = specWeight (cy - 16) ∧ down_prob cy = specWeight (48 - cy)) ∧
    (∀ cx, left_prob cx ≤ SCALE ∧ right_prob cx ≤ SCALE) ∧
    (∀ cy, up_prob cy ≤ SCALE ∧ down_prob cy ≤ SCALE) ∧
    (∀ (σ : Type) (next : σ → Nat × σ) (s : σ) (cx cy : Nat),
      decide_direction_fixed next s cx cy =
        (firstExceeding ((next s).1 % total_weight cx cy)
          [(Direction.left, left_prob cx), (Direction.right, right_prob cx),
           (Direction.up, up_prob cy), (Direction.down, down_prob cy)] 0,
         (next s).2)) := by
  have hbound : ∀ d : Nat, ¬16 ≤ d → d * 1000000 / 16 ≤ 1000000 := by
    intro d hd
    calc d * 1000000 / 16 ≤ 16000000 / 16 := Nat.div_le_div_right (by omega)
      _ = 1000000 := by norm_num
  refine ⟨?_, ?_, ?_, ?_, ?_⟩
  · intro cx
    constructor <;> rfl
  · intro cy
    constructor <;> rfl
  · intro cx
    constructor
    · unfold left_prob VIRTUAL_WIDTH SCALE
      norm_num
      split_ifs with hd
      · exact le_refl _
      · exact hbound _ hd
    · unfold right_prob VIRTUAL_WIDTH SCALE
      norm_num
      split_ifs with hd
      · exact le_refl _
      · exact hbound _ hd
  · intro cy
    constructor
    · unfold up_prob HEIGHT SCALE
      norm_num
      split_ifs with hd
      · exact le_refl _
      · exact hbound _ hd
    · unfold down_prob HEIGHT SCALE
      norm_num
      split_ifs with hd
      · exact le_refl _
      · exact hbound _ hd
  · intro σ next s cx cy
    simp only [decide_direction_fixed, firstExceeding, Nat.zero_add, ite_self]

/-- C5: for every cursor position inside the maintained sub-region the
four direction weights sum to a strictly positive total, so the
reduction `rand_val = next_u32 % total` is never a division by zero. -/
theorem total_weight_pos_inRegion (cx cy : Nat)
    (hx1 : 16 ≤ cx) (hx2 : cx < 48) (hy1 : 16 ≤ cy) (hy2 : cy < 48) :
    0 < total_weight cx cy ∧ ∀ v : Nat, v % total_weight cx cy < total_weight cx cy :=
  ⟨total_weight_pos cx cy, fun v => Nat.mod_lt v (total_weight_pos cx cy)⟩

theorem total_weight_pos_inRegion_witness :
    0 < total_weight 20 30 ∧ ∀ v : Nat, v % total_weight 20 30 < total_weight 20 30 :=
  total_weight_pos_inRegion 20 30 (by decide) (by decide) (by decide) (by decide)

/-- C10: for coordinates with `x ≥ 32` or `y ≥ 64`, `set_pixel` returns
the canvas unchanged and `get_pixel` returns `false`; the guard fails
before any byte of the canvas is touched, so neither operation can
panic. -/
theorem canvas_oob (c : BinaryImage32x64) (x y : Nat) (v : Bool)
    (h : 32 ≤ x ∨ 64 ≤ y) :
    c.set_pixel x y v = c ∧ c.get_pixel x y = false := by
  have hn : ¬(x < 32 ∧ y < 64) := by omega
  constructor
  · unfold BinaryImage32x64.set_pixel
    rw [if_neg hn]
  · unfold BinaryImage32x64.get_pixel
    rw [if_neg hn]

theorem canvas_oob_witness :
    BinaryImage32x64.new.set_pixel 32 0 true = BinaryImage32x64.new ∧
    BinaryImage32x64.new.get_pixel 32 0 = false :=
  canvas_oob BinaryImage32x64.new 32 0 true (Or.inl (by decide))

/-- C6: under the bit source's range contract every walk's start cursor
lies inside the centered sub-region; one walk step (and hence any number
of them) keeps the cursor inside it; a blocked move at each boundary
leaves the cursor exactly where it was; and each step consumes exactly
one direction draw, advancing the bit source exactly as the direction
decision does. -/
theorem walker_region_invariant {σ κ : Type} (next : σ → Nat × σ)
    (range : σ → Nat → Nat → Nat × σ) (mark : κ → Nat → Nat → κ)
    (hrange : ∀ s lo hi, lo < hi → lo ≤ (range s lo hi).1 ∧ (range s lo hi).1 < hi) :
    (∀ (s : σ) (canvas : κ), inRegion ((startWalk range mark s canvas).cursor)) ∧
    (∀ st : WalkState σ κ, inRegion st.cursor →
      inRegion ((walkStep next mark st).cursor)) ∧
    (∀ (n : Nat) (st : WalkState σ κ), inRegion st.cursor →
      inRegion (((walkStep next mark)^[n]) st).cursor) ∧
    (∀ cy, moveCursor Direction.left (16, cy) = (16, cy)) ∧
    (∀ cy, moveCursor Direction.right (47, cy) = (47, cy)) ∧
    (∀ cx, moveCursor Direction.up (cx, 16) = (cx, 16)) ∧
    (∀ cx, moveCursor Direction.down (cx, 47) = (cx, 47)) ∧
    (∀ st : WalkState σ κ, (walkStep next mark st).rng =
      (decide_direction_fixed next st.rng st.cursor.1 st.cursor.2).2) := by
  refine ⟨fun s canvas => startWalk_inRegion range mark hrange s canvas,
    fun st h => walkStep_inRegion next mark st h,
    fun n st h => iterate_inRegion next mark n st h,
    fun cy => by rw [moveCursor_left]; norm_num,
    fun cy => by rw [moveCursor_right]; norm_num,
    fun cx => by rw [moveCursor_up]; norm_num,
    fun cx => by rw [moveCursor_down]; norm_num,
    fun st => rfl⟩

theorem walker_region_invariant_witness :
    inRegion ((startWalk tRange tMark 5 0).cursor) :=
  (walker_region_invariant tNext tRange tMark
    (fun _s lo _hi h => ⟨Nat.le_refl lo, h⟩)).1 5 0

/-- C7: the fold keeps a virtual x below 32 unchanged and mirrors
`x ≥ 32` to `64 - x - 1`; on the maintained sub-region every folded
column lies in `[16, 31]` and every row in `[16, 47]`; and both mark
sites of the loop write exactly at the folded cursor cell. -/
theorem fold_mark_bounds {σ κ : Type} (next : σ → Nat × σ)
    (range : σ → Nat → Nat → Nat × σ) (mark : κ → Nat → Nat → κ) :
    (∀ x, x < 32 → foldPhysicalX x = x) ∧
    (∀ x, 32 ≤ x → foldPhysicalX x = 64 - x - 1) ∧
    (∀ c : Nat × Nat, inRegion c →
      16 ≤ foldPhysicalX c.1 ∧ foldPhysicalX c.1 ≤ 31 ∧ 16 ≤ c.2 ∧ c.2 ≤ 47) ∧
    (∀ st : WalkState σ κ, (walkStep next mark st).canvas =
      mark st.canvas
        (foldPhysicalX
          (moveCursor (decide_direction_fixed next st.rng st.cursor.1 st.cursor.2).1
            st.cursor).1)
        (moveCursor (decide_direction_fixed next st.rng st.cursor.1 st.cursor.2).1
          st.cursor).2) ∧
    (∀ (s : σ) (canvas : κ), (startWalk range mark s canvas).canvas =
      mark canvas (foldPhysicalX (range s 16 48).1)
        ((range (range s 16 48).2 16 48).1)) := by
  refine ⟨?_, ?_, ?_, fun st => rfl, fun s canvas => rfl⟩
  · intro x hx
    unfold foldPhysicalX PHYSICAL_WIDTH
    rw [if_neg (by omega)]
  · intro x hx
    unfold foldPhysicalX PHYSICAL_WIDTH VIRTUAL_WIDTH
    rw [if_pos (by omega)]
  · intro c hc
    obtain ⟨a, b⟩ := c
    rw [inRegion_mk] at hc
    unfold foldPhysicalX PHYSICAL_WIDTH VIRTUAL_WIDTH
    dsimp only
    split_ifs <;> omega

theorem fold_mark_bounds_witness :
    foldPhysicalX 5 = 5 ∧ foldPhysicalX 40 = 64 - 40 - 1 ∧
    (16 ≤ foldPhysicalX (40, 20).1 ∧ foldPhysicalX (40, 20).1 ≤ 31 ∧
      16 ≤ ((40, 20) : Nat × Nat).2 ∧ ((40, 20) : Nat × Nat).2 ≤ 47) :=
  ⟨(fold_mark_bounds tNext tRange tMark).1 5 (by decide),
   (fold_mark_bounds tNext tRange tMark).2.1 40 (by decide),
   (fold_mark_bounds tNext tRange tMark).2.2.1 (40, 20) (by decide)⟩

/-- C1: the guest commits, in this order: the 20-byte address, walks,
steps, and then the byte serialization of the RGB half-canvas built by
`generate_rorschach_half` — 6144 bytes, not the 256-byte binary canvas
of `generate_rorschach_binary` that the host verifier decodes as eight
32-byte chunks. -/
theorem guest_journal_layout {σ : Type} (next : σ → Nat × σ)
    (range : σ → Nat → Nat → Nat × σ) (fromSeed : Key → σ)
    (address : Key → List Nat) (k : Key) :
    guest_journal next range fromSeed address k =
      [JournalItem.bytes (address k),
       JournalItem.int (derive_parameters k).1,
       JournalItem.int (derive_parameters k).2,
       JournalItem.bytes ((generate_rorschach_half next range fromSeed k
         (derive_parameters k).1 (derive_parameters k).2
         guest_foreground guest_background).to_bytes)] ∧
    ((generate_rorschach_half next range fromSeed k (derive_parameters k).1
        (derive_parameters k).2 guest_foreground guest_background).to_bytes).length =
      6144 ∧
    ((generate_rorschach_binary next range fromSeed k (derive_parameters k).1
        (derive_parameters k).2).to_bytes).length = 256 := by
  refine ⟨rfl, ?_, ?_⟩
  · have hlen : (generate_rorschach_half next range fromSeed k (derive_parameters k).1
        (derive_parameters k).2 guest_foreground guest_background).pixels.length =
        2048 := by
      unfold generate_rorschach_half
      exact runWalks_canvas_inv next range
        (fun (img : Image32x64) (x y : Nat) => img.set_pixel x y guest_foreground)
        (fun (img : Image32x64) => img.pixels.length = 2048)
        (fun c x y hc => by
          show (c.set_pixel x y guest_foreground).pixels.length = 2048
          rw [image_set_pixel_length]
          exact hc) _ _ _ _
        (by show (List.replicate (32 * 64) guest_background).length = 2048
            rw [List.length_replicate])
    unfold Image32x64.to_bytes
    rw [image_to_bytes_length_aux, hlen]
  · have hlen : (generate_rorschach_binary next range fromSeed k (derive_parameters k).1
        (derive_parameters k).2).data.length = 256 := by
      unfold generate_rorschach_binary
      exact runWalks_canvas_inv next range
        (fun (c : BinaryImage32x64) (x y : Nat) => c.set_pixel x y true)
        (fun (c : BinaryImage32x64) => c.data.length = 256)
        (fun c x y hc => by
          show (c.set_pixel x y true).data.length = 256
          rw [set_pixel_data_length]
          exact hc) _ _ _ _
        (by show (List.replicate 256 (0 : Nat)).length = 256
            rw [List.length_replicate])
    unfold BinaryImage32x64.to_bytes
    exact hlen

/-- C9 counterexample: `from_bytes` copies its input verbatim, so the
canvas built from an empty byte vector serializes back to 0 bytes, not
256 — the length invariant does not hold for every canvas value. -/
theorem canvas_to_bytes_not_always_256 :
    (BinaryImage32x64.from_bytes []).to_bytes.length ≠ 256 := by
  decide

/-- C9 (amended): for every canvas whose byte vector holds the full 256
bytes — established by `new`, preserved by `set_pixel`, and obtained by
`from_bytes` of a 256-byte blob — `to_bytes` has length 256; the
round-trip `from_bytes (to_bytes c) = c` holds for every canvas; a new
canvas is 256 zero bytes; and cell `(x, y)` is read from bit `y*32+x`
of the blob, MSB-first within each byte. -/
theorem canvas_serialization_spec :
    (∀ c : BinaryImage32x64, c.data.length = 256 → c.to_bytes.length = 256) ∧
    BinaryImage32x64.new.data.length = 256 ∧
    (∀ (c : BinaryImage32x64) (x y : Nat) (v : Bool),
      (c.set_pixel x y v).data.length = c.data.length) ∧
    (∀ bytes : List Nat, (BinaryImage32x64.from_bytes bytes).data = bytes) ∧
    (∀ c : BinaryImage32x64, BinaryImage32x64.from_bytes c.to_bytes = c) ∧
    BinaryImage32x64.new.data = List.replicate 256 0 ∧
    (∀ (c : BinaryImage32x64) (x y : Nat), x < 32 → y < 64 →
      c.get_pixel x y =
        (c.data.getD ((y * 32 + x) / 8) 0).testBit (7 - (y * 32 + x) % 8)) := by
  refine ⟨fun c h => h, ?_, fun c x y v => set_pixel_data_length c x y v,
    fun bytes => rfl, fun c => rfl, rfl,
    fun c x y hx hy => get_pixel_testBit c x y hx hy⟩
  show (List.replicate 256 (0 : Nat)).length = 256
  rw [List.length_replicate]

theorem canvas_serialization_spec_witness :
    BinaryImage32x64.new.to_bytes.length = 256 ∧
    BinaryImage32x64.new.get_pixel 5 7 =
      (BinaryImage32x64.new.data.getD ((7 * 32 + 5) / 8) 0).testBit
        (7 - (7 * 32 + 5) % 8) :=
  ⟨canvas_serialization_spec.1 BinaryImage32x64.new (by decide),
   canvas_serialization_spec.2.2.2.2.2.2 BinaryImage32x64.new 5 7 (by decide) (by decide)⟩

/-! ### C8: the RGB and binary generators mark the same cells -/

theorem colors_match_aux (b : BinaryImage32x64) (img : Image32x64) (fg bg : Pixel)
    (hfb : fg ≠ bg)
    (hpt : ∀ p q, p < 32 → q < 64 →
      img.get_pixel p q = some (if b.get_pixel p q then fg else bg)) (x y : Nat) :
    img.get_pixel x y = some fg ↔ b.get_pixel x y = true := by
  by_cases hxy : x < 32 ∧ y < 64
  · rw [hpt x y hxy.1 hxy.2]
    cases hb : b.get_pixel x y
    · simp only [Bool.false_eq_true, if_false, iff_false]
      intro h
      exact hfb (Option.some.inj h).symm
    · simp
  · have h1 : img.get_pixel x y = none := by
      unfold Image32x64.get_pixel
      rw [if_neg hxy]
    have h2 : b.get_pixel x y = false := by
      unfold BinaryImage32x64.get_pixel
      rw [if_neg hxy]
    rw [h1, h2]
    simp

/-- C8: for every key, walk and step count, and foreground/background
pair with `fg ≠ bg`, the RGB half generator holds the foreground color
at exactly the coordinates where the identically seeded binary
generator sets a true bit. -/
theorem half_matches_binary {σ : Type} (next : σ → Nat × σ)
    (range : σ → Nat → Nat → Nat × σ) (fromSeed : Key → σ) (k : Key)
    (walks steps : Nat) (fg bg : Pixel) (hfb : fg ≠ bg) (x y : Nat) :
    (generate_rorschach_half next range fromSeed k walks steps fg bg).get_pixel x y =
      some fg ↔
    (generate_rorschach_binary next range fromSeed k walks steps).get_pixel x y =
      true := by
  have hmark : ∀ (b : BinaryImage32x64) (img : Image32x64) (u v : Nat),
      (b.data.length = 256 ∧ img.pixels.length = 2048 ∧
        ∀ p q, p < 32 → q < 64 →
          img.get_pixel p q = some (if b.get_pixel p q then fg else bg)) →
      ((b.set_pixel u v true).data.length = 256 ∧
        (img.set_pixel u v fg).pixels.length = 2048 ∧
        ∀ p q, p < 32 → q < 64 →
          (img.set_pixel u v fg).get_pixel p q =
            some (if (b.set_pixel u v true).get_pixel p q then fg else bg)) := by
    intro b img u v hR
    obtain ⟨h256, h2048, hpt⟩ := hR
    refine ⟨by rw [set_pixel_data_length]; exact h256,
      by rw [image_set_pixel_length]; exact h2048, ?_⟩
    intro p q hp hq
    rw [image_get_set_pixel img h2048 fg u v p q hp hq,
      get_pixel_set_pixel_true b h256 u v p q hp hq]
    by_cases h : u = p ∧ v = q
    · rw [if_pos h, if_pos h]
      simp
    · rw [if_neg h, if_neg h]
      exact hpt p q hp hq
  have hinit : BinaryImage32x64.new.data.length = 256 ∧
      (Image32x64.new bg).pixels.length = 2048 ∧
      ∀ p q, p < 32 → q < 64 →
        (Image32x64.new bg).get_pixel p q =
          some (if BinaryImage32x64.new.get_pixel p q then fg else bg) := by
    refine ⟨by show (List.replicate 256 (0 : Nat)).length = 256
               rw [List.length_replicate],
      by show (List.replicate (32 * 64) bg).length = 2048
         rw [List.length_replicate], ?_⟩
    intro p q hp hq
    rw [image_get_pixel_new bg p q hp hq, get_pixel_new]
    simp
  have hfinal := runWalks_rel next range
    (fun (c : BinaryImage32x64) (u v : Nat) => c.set_pixel u v true)
    (fun (img : Image32x64) (u v : Nat) => img.set_pixel u v fg)
    (fun (b : BinaryImage32x64) (img : Image32x64) =>
      b.data.length = 256 ∧ img.pixels.length = 2048 ∧
      ∀ p q, p < 32 → q < 64 →
        img.get_pixel p q = some (if b.get_pixel p q then fg else bg))
    (fun b img u v hR => hmark b img u v hR)
    walks steps BinaryImage32x64.new (Image32x64.new bg) (fromSeed k) hinit
  obtain ⟨⟨hb256, hi2048, hpt⟩, -⟩ := hfinal
  unfold generate_rorschach_half generate_rorschach_binary
  exact colors_match_aux _ _ fg bg hfb hpt x y

theorem half_matches_binary_witness :
    (generate_rorschach_half tNext tRange tSeed zeroKey 2 3 guest_foreground
        guest_background).get_pixel 20 20 = some guest_foreground ↔
    (generate_rorschach_binary tNext tRange tSeed zeroKey 2 3).get_pixel 20 20 =
      true :=
  half_matches_binary tNext tRange tSeed zeroKey 2 3 guest_foreground
    guest_background (by decide) 20 20
